import Mathlib

/-!
Verification of the Warboard BSData importer (scripts/bsdata-importer.py).

The development shallowly embeds the importer's core: the XML catalog is
modelled as a tree of elements (tag, attributes, text, children), Python
dicts are modelled as insertion-ordered association lists, and every
fallible Python computation (an `int(...)` or `float(...)` call or a
`min(...)` over a possibly-empty collection that may raise) is modelled in
the `Option` monad, `none` standing for an uncaught exception.  A function
that can both raise and return Python `None` has type `Option (Option _)`:
the outer layer is the exception, the inner layer is `None` versus a
produced record.

Numeric-literal parsing notes: Python `int(s)` accepts surrounding
whitespace, an optional sign and a nonempty digit string; `int(float(s))`
is modelled on decimal literals (optional sign, integer digits, an
optional fractional part), truncating toward zero.  Exponent notation,
underscore digit separators, infinities and the rounding of decimal
literals with more than 17 significant digits are not modelled; no claim
exercises them.  Python whitespace is modelled as the six ASCII whitespace
characters.
-/

namespace BS

/-- The six ASCII characters Python treats as whitespace (`str.split`,
`str.strip`, `int`/`float` parsing).  Unicode whitespace is not modelled. -/
def isPyWs (c : Char) : Bool :=
  c == ' ' || c == '\t' || c == '\n' || c == '\r' || c == Char.ofNat 11 || c == Char.ofNat 12

/-- Python `str.strip()` on a character list: drop whitespace at both ends. -/
def pyStrip (l : List Char) : List Char :=
  ((l.dropWhile isPyWs).reverse.dropWhile isPyWs).reverse

/-- Numeric value of a digit string (most significant first). -/
def digitsVal (l : List Char) : Nat :=
  l.foldl (fun a c => a * 10 + (c.toNat - 48)) 0

/-- Split off an optional leading sign; `true` means negative. -/
def splitSign : List Char → Bool × List Char
  | '-' :: r => (true, r)
  | '+' :: r => (false, r)
  | r => (false, r)

/-- Python `int(s)` on a string: strip whitespace, optional sign, a
nonempty run of digits; `none` models the `ValueError`. -/
def pyInt? (s : String) : Option Int :=
  let t := pyStrip s.data
  let (neg, u) := splitSign t
  if u ≠ [] ∧ u.all Char.isDigit then
    some (if neg then -(digitsVal u : Int) else (digitsVal u : Int))
  else none

/-- Python `int(float(s))` on a decimal literal: strip whitespace,
optional sign, digits with an optional fractional part (at least one digit
overall), truncated toward zero.  `none` models the `ValueError`. -/
def pyFloatInt? (s : String) : Option Int :=
  let t := pyStrip s.data
  let (neg, u) := splitSign t
  let ip := u.takeWhile Char.isDigit
  let rest := u.drop ip.length
  let ok : Bool :=
    match rest with
    | [] => !ip.isEmpty
    | c :: fr => c == '.' && (!ip.isEmpty || !fr.isEmpty) && fr.all Char.isDigit
  if ok then some (if neg then -(digitsVal ip : Int) else (digitsVal ip : Int))
  else none

/-- Python's `needle in haystack` substring test. -/
def containsSub (hay needle : List Char) : Bool :=
  (List.range (hay.length + 1)).any (fun i => needle.isPrefixOf (hay.drop i))

/-- Association-list lookup, first match wins (Python `dict` keys are
unique, so for dict-shaped lists this is plain dict indexing / `.get`). -/
def lookupD {α : Type} (l : List (String × α)) (k : String) : Option α :=
  match l with
  | [] => none
  | (k', v) :: rest => if k' = k then some v else lookupD rest k

/-- Python `d[k] = v` on an insertion-ordered dict: overwrite in place if
the key is present, else append. -/
def updD {α : Type} (k : String) (v : α) : List (String × α) → List (String × α)
  | [] => [(k, v)]
  | (k', v') :: rest => if k' = k then (k, v) :: rest else (k', v') :: updD k v rest

/-- Build a dict from a sequence of assignments (later values win, first
insertion fixes the position), e.g. `{u["name"]: u for u in us}`. -/
def mkDict {α : Type} (l : List (String × α)) : List (String × α) :=
  l.foldl (fun d kv => updD kv.1 kv.2 d) []

/-- Python `min(xs)` over integers: the smallest value; `none` models the
`ValueError` on an empty collection. -/
def pyMinInt (l : List Int) : Option Int :=
  match l with
  | [] => none
  | v :: vs => some (vs.foldl (fun b c => if c < b then c else b) v)

/-- Python `min(keys, key=int)`: the first key whose integer value is
minimal; `none` models the `ValueError` (empty collection, or some key not
parsing as an integer). -/
def pyMinKeyByInt (ks : List String) : Option String := do
  let vals ← ks.mapM (fun k => (pyInt? k).map (fun n => (k, n)))
  match vals with
  | [] => none
  | v :: vs => some (vs.foldl (fun b c => if c.2 < b.2 then c else b) v).1

mutual

/-- An XML element: tag, attributes, text content (`none` = Python
`elem.text is None`), children.  This models the tree `ElementTree`
produces from a `.cat` file after the importer's namespace stripping. -/
inductive Elem : Type where
  | mk (tag : String) (attrs : List (String × String)) (text : Option String) (children : ElemList)

/-- Children of an element (a mutual inductive so that all traversals are
structurally recursive). -/
inductive ElemList : Type where
  | nil
  | cons (e : Elem) (es : ElemList)

end

def ElemList.ofList : List Elem → ElemList
  | [] => .nil
  | e :: es => .cons e (ofList es)

def ElemList.toList : ElemList → List Elem
  | .nil => []
  | .cons e es => e :: toList es

/-- Element constructor taking an ordinary list of children. -/
def el (tag : String) (attrs : List (String × String)) (text : Option String)
    (children : List Elem) : Elem :=
  .mk tag attrs text (.ofList children)

def Elem.tag : Elem → String
  | .mk t _ _ _ => t

def Elem.attrs : Elem → List (String × String)
  | .mk _ a _ _ => a

def Elem.text : Elem → Option String
  | .mk _ _ s _ => s

def Elem.childList : Elem → List Elem
  | .mk _ _ _ cs => cs.toList

/-- Python `elem.get(k)` (no default): `None` when the attribute is absent. -/
def Elem.attr? (e : Elem) (k : String) : Option String :=
  lookupD e.attrs k

/-- Python `elem.get(k, d)`. -/
def Elem.attrD (e : Elem) (k d : String) : String :=
  (e.attr? k).getD d

mutual

/-- All elements of the subtree in document (preorder) order, the root
included; `ElementTree`'s `iter()` order. -/
def Elem.preorder : Elem → List Elem
  | .mk t a s cs => .mk t a s cs :: ElemList.preorderL cs

def ElemList.preorderL : ElemList → List Elem
  | .nil => []
  | .cons e es => e.preorder ++ ElemList.preorderL es

end

/-- Python `elem.findall('.//x')` without the tag filter: every proper
descendant in document order. -/
def Elem.descendants (e : Elem) : List Elem :=
  match e with
  | .mk _ _ _ cs => ElemList.preorderL cs

/-- Python `elem.findall('.//tag')`. -/
def Elem.findAllDeep (e : Elem) (t : String) : List Elem :=
  e.descendants.filter (fun c => c.tag == t)

/-- Python `elem.findall('a/b')`: the `b`-tagged children of the
`a`-tagged children, in document order. -/
def Elem.findPath2 (e : Elem) (a b : String) : List Elem :=
  ((e.childList.filter (fun c => c.tag == a)).map
    (fun c => c.childList.filter (fun d => d.tag == b))).flatten

/-- Python `elem.find('tag')`: first child with the tag, if any. -/
def Elem.findChild (e : Elem) (t : String) : Option Elem :=
  (e.childList.filter (fun c => c.tag == t)).head?

/-! ## Constants: BSData type identifiers (the Field Vocabulary) -/

def POINTS_TYPE_ID : String := "51b2-306e-1021-d207"

def STAT_TYPE_IDS : List (String × String) :=
  [("e703-ecb6-5ce7-aec1", "m"),
   ("d29d-cf75-fc2d-34a4", "t"),
   ("450-a17e-9d5e-29da", "sv"),
   ("750a-a2ec-90d3-21fe", "w"),
   ("58d2-b879-49c7-43bc", "ld"),
   ("bef7-942a-1a23-59f8", "oc")]

def RANGED_WEAPON_STAT_IDS : List (String × String) :=
  [("914c-b413-91e3-a132", "range"),
   ("2337-daa1-6682-b110", "a"),
   ("94d-8a98-cf90-183d", "bs"),
   ("ab33-d393-96ce-ccba", "s"),
   ("41a0-1301-112a-e2f2", "ap"),
   ("3254-9fe6-d824-513e", "d")]

def MELEE_WEAPON_STAT_IDS : List (String × String) :=
  [("914c-b413-91e3-a132", "range"),
   ("2337-daa1-6682-b110", "a"),
   ("95d1-95f-45b4-11d6", "ws"),
   ("ab33-d393-96ce-ccba", "s"),
   ("41a0-1301-112a-e2f2", "ap"),
   ("3254-9fe6-d824-513e", "d")]

/-! ## Text Normalizer -/

/-- One left-to-right pass removing the BSData markup pairs, modelling
`re.sub(r'\^\^|\*\*', '', text)` (the two-character patterns cannot
overlap a later match they do not themselves consume). -/
def removeMarkup : List Char → List Char
  | c1 :: c2 :: rest =>
    if (c1 == '^' && c2 == '^') || (c1 == '*' && c2 == '*') then removeMarkup rest
    else c1 :: removeMarkup (c2 :: rest)
  | l => l

/-- One left-to-right pass decoding the two entity references, modelling
`text.replace('&quot;', ...)` followed by the apostrophe replacement (no
occurrence of either pattern can overlap one of the other, so the two
sequential passes equal one combined pass). -/
def decodeEntities : List Char → List Char
  | '&' :: 'q' :: 'u' :: 'o' :: 't' :: ';' :: rest => '"' :: decodeEntities rest
  | '&' :: 'a' :: 'p' :: 'o' :: 's' :: ';' :: rest => Char.ofNat 39 :: decodeEntities rest
  | c :: rest => c :: decodeEntities rest
  | [] => []

/-- Python `s.split()` (no argument): pieces between whitespace runs,
empties dropped. -/
def splitOnWs : List Char → List (List Char)
  | [] => [[]]
  | c :: rest =>
    if isPyWs c then [] :: splitOnWs rest
    else
      match splitOnWs rest with
      | [] => [[c]]
      | p :: ps => (c :: p) :: ps

def pyWords (l : List Char) : List (List Char) :=
  (splitOnWs l).filter (fun w => w ≠ [])

/-- `' '.join(text.split())`: collapse whitespace runs to single spaces,
trimming the ends. -/
def collapseWs (l : List Char) : List Char :=
  (List.intersperse [' '] (pyWords l)).flatten

/-- `clean_text`: remove BSData markup, decode the two entities, collapse
whitespace.  The Python guard `if not text: return ""` is the identity on
the empty string. -/
def clean_text (text : String) : String :=
  String.mk (collapseWs (decodeEntities (removeMarkup text.data)))

/-- A parsed stat value: either an integer or the text token kept as-is
(the `Any` returned by `parse_stat_value`). -/
inductive StatVal : Type where
  | int (n : Int)
  | str (s : String)
deriving DecidableEq, Repr

/-- The quote-mark stripping and trimming inside `parse_stat_value`:
`value.replace('"', '').replace("'", '').strip()`. -/
def stripStat (value : String) : String :=
  String.mk (pyStrip (value.data.filter (fun c => !(c == '"' || c == Char.ofNat 39))))

/-- `parse_stat_value`: empty input gives integer 0; otherwise strip the
quote-like unit markers and whitespace, return the integer if the
remainder parses as one, else the trimmed text unchanged. -/
def parse_stat_value (value : String) : StatVal :=
  if value = "" then .int 0
  else
    match pyInt? (stripStat value) with
    | some n => .int n
    | none => .str (stripStat value)

/-! ## Record types (the importer's dataclasses) -/

structure Weapon : Type where
  id : String
  name : String
  type : String
  stats : List (String × StatVal)
  abilities : List String
deriving DecidableEq, Repr

structure Ability : Type where
  id : String
  name : String
  description : String
deriving DecidableEq, Repr

structure Unit : Type where
  id : String
  name : String
  points : List (String × Int)
  stats : List (String × StatVal)
  invuln : Option String
  weapons : List Weapon
  abilities : List Ability
  keywords : List String
deriving DecidableEq, Repr

structure Enhancement : Type where
  id : String
  name : String
  points : Int
  description : String
deriving DecidableEq, Repr

structure Detachment : Type where
  id : String
  name : String
  rule_name : String
  rule_description : String
  enhancements : List Enhancement
deriving DecidableEq, Repr

/-- The normalized dataset `parse_bsdata_catalog` returns (the `source`
file-path field of the Python dict is CLI-level and not modelled). -/
structure Dataset : Type where
  units : List Unit
  enhancements : List Enhancement
  detachments : List Detachment
deriving DecidableEq, Repr

/-! ## Record Extractor -/

/-- `extract_unit_stats`: walk the profile's characteristic descendants,
keep those whose `typeId` is in the unit stat vocabulary, last write per
stat key wins. -/
def extract_unit_stats (profile : Elem) : List (String × StatVal) :=
  (profile.findAllDeep "characteristic").foldl
    (fun stats ch =>
      match lookupD STAT_TYPE_IDS (ch.attrD "typeId" "") with
      | some statName => updD statName (parse_stat_value (ch.text.getD "")) stats
      | none => stats)
    []

/-- `extract_weapon`: requires a nonempty `name`; builds the stat mapping
from the weapon-kind vocabulary; an empty mapping produces no record. -/
def extract_weapon (profile : Elem) (weapon_type : String) : Option Weapon :=
  let name := profile.attrD "name" ""
  if name = "" then none
  else
    let stat_ids := if weapon_type = "melee" then MELEE_WEAPON_STAT_IDS else RANGED_WEAPON_STAT_IDS
    let stats := (profile.findAllDeep "characteristic").foldl
      (fun stats ch =>
        match lookupD stat_ids (ch.attrD "typeId" "") with
        | some statName => updD statName (parse_stat_value (ch.text.getD "")) stats
        | none => stats)
      []
    if stats = [] then none
    else some { id := profile.attrD "id" "", name := name, type := weapon_type,
                stats := stats, abilities := [] }

/-- `extract_ability`: requires a nonempty `name`; the description is the
first characteristic descendant named `Description`, cleaned. -/
def extract_ability (profile : Elem) : Option Ability :=
  let name := profile.attrD "name" ""
  if name = "" then none
  else
    let description :=
      match ((profile.findAllDeep "characteristic").filter
              (fun ch => ch.attr? "name" == some "Description")).head? with
      | some ch => clean_text (ch.text.getD "")
      | none => ""
    some { id := profile.attrD "id" "", name := name, description := description }

/-- The `re.sub(r'^Faction:\s*', '', name)` prefix strip. -/
def stripFaction (name : String) : String :=
  if ("Faction:".data).isPrefixOf name.data then
    String.mk ((name.data.drop 8).dropWhile isPyWs)
  else name

/-- `extract_keywords`: every `categoryLink` descendant's `name`, dropping
absent/empty names and the exact literals `Configuration` and `Faction:`,
stripping a leading `Faction:` prefix from what is kept. -/
def extract_keywords (entry : Elem) : List String :=
  (entry.findAllDeep "categoryLink").foldl
    (fun keywords cl =>
      let name := cl.attrD "name" ""
      if name ≠ "" ∧ name ≠ "Configuration" ∧ name ≠ "Faction:" then
        keywords ++ [stripFaction name]
      else keywords)
    []

/-! ## Cost Resolver (`extract_points_scaling`) -/

/-- Does a `cost` element carry the points cost (`typeId` matches the
points type or `name == 'pts'`)? -/
def isPtsCost (c : Elem) : Bool :=
  c.attr? "typeId" == some POINTS_TYPE_ID || c.attr? "name" == some "pts"

/-- The first descendant `constraint` with `type == 'min'` and
`field == 'selections'`. -/
def firstMinConstraint (entry : Elem) : Option Elem :=
  ((entry.findAllDeep "constraint").filter
    (fun c => c.attr? "type" == some "min" && c.attr? "field" == some "selections")).head?

/-- The inferred minimum model count for the base cost: `int(...)` of the
first min/selections constraint's `value` (default string "1"), or 1 when
no such constraint exists; `none` models the `ValueError`. -/
def minCount? (entry : Elem) : Option Int :=
  match firstMinConstraint entry with
  | none => some 1
  | some c => pyInt? (c.attrD "value" "1")

/-- One iteration of the base-cost loop over `costs/cost` children. -/
def baseCostStep (entry : Elem) (points : List (String × Int)) (cost : Elem) :
    Option (List (String × Int)) :=
  if isPtsCost cost then
    match pyFloatInt? (cost.attrD "value" "0") with
    | none => none
    | some base_pts =>
      if base_pts > 0 then
        match minCount? entry with
        | none => none
        | some min_count => some (updD (toString min_count) base_pts points)
      else some points
  else some points

def baseCostFold (entry : Elem) : List Elem → List (String × Int) →
    Option (List (String × Int))
  | [], points => some points
  | c :: cs, points =>
    match baseCostStep entry points c with
    | none => none
    | some points' => baseCostFold entry cs points'

/-- One iteration of the inner condition loop of the modifier scan:
a condition whose `field` contains the substring `selections` records the
modifier's cost under the condition's `value`, provided both are nonzero
and nonempty. -/
def condStep (pts : Int) (points : List (String × Int)) (cond : Elem) :
    List (String × Int) :=
  if containsSub (cond.attrD "field" "").data "selections".data then
    if cond.attrD "value" "" ≠ "" ∧ pts > 0 then
      updD (cond.attrD "value" "") pts points
    else points
  else points

/-- One iteration of the modifier loop: a `set` modifier on the points
field parses its value and scans its condition descendants. -/
def modifierStep (points : List (String × Int)) (m : Elem) :
    Option (List (String × Int)) :=
  if m.attr? "type" == some "set" && m.attr? "field" == some POINTS_TYPE_ID then
    match pyFloatInt? (m.attrD "value" "0") with
    | none => none
    | some pts => some ((m.findAllDeep "condition").foldl (condStep pts) points)
  else some points

def modifierFold : List Elem → List (String × Int) → Option (List (String × Int))
  | [], points => some points
  | m :: ms, points =>
    match modifierStep points m with
    | none => none
    | some points' => modifierFold ms points'

/-- `extract_points_scaling`: the base cost keyed by the inferred minimum
model count, then the `set`-modifier overrides keyed by their
selections-condition values. -/
def extract_points_scaling (entry : Elem) : Option (List (String × Int)) :=
  match baseCostFold entry (entry.findPath2 "costs" "cost") [] with
  | none => none
  | some points => modifierFold (entry.findAllDeep "modifier") points

/-! ## Unit / Enhancement / Detachment parsing -/

/-- Accumulator of `parse_unit`'s profile scan. -/
structure UnitParts : Type where
  stats : List (String × StatVal)
  invuln : Option String
  weapons : List Weapon
  abilities : List Ability
deriving DecidableEq, Repr

def initUnitParts : UnitParts :=
  { stats := [], invuln := none, weapons := [], abilities := [] }

/-- One iteration of `parse_unit`'s profile loop, dispatching on the
profile's `typeName`. -/
def unitPartsStep (p : UnitParts) (profile : Elem) : UnitParts :=
  let tn := profile.attrD "typeName" ""
  if tn = "Unit" then { p with stats := extract_unit_stats profile }
  else if tn = "Ranged Weapons" then
    match extract_weapon profile "ranged" with
    | some w => { p with weapons := p.weapons ++ [w] }
    | none => p
  else if tn = "Melee Weapons" then
    match extract_weapon profile "melee" with
    | some w => { p with weapons := p.weapons ++ [w] }
    | none => p
  else if tn = "Abilities" then
    match extract_ability profile with
    | some a => { p with abilities := p.abilities ++ [a] }
    | none => p
  else if tn = "Invulnerable Save" then
    ((profile.findAllDeep "characteristic").filter
      (fun ch => ch.attr? "name" == some "Invulnerable Save")).foldl
      (fun q ch => { q with invuln := ch.text }) p
  else p

/-- `parse_unit`: requires a nonempty `name` and a nonempty resolved
points table, then assembles stats, weapons, abilities, invulnerable save
and keywords from the profile scan.  Outer `none` = exception, inner
`none` = Python `None` (no record). -/
def parse_unit (entry : Elem) : Option (Option Unit) :=
  let name := entry.attrD "name" ""
  let entry_id := entry.attrD "id" ""
  if name = "" then some none
  else
    match extract_points_scaling entry with
    | none => none
    | some points =>
      if points = [] then some none
      else
        let parts := (entry.findAllDeep "profile").foldl unitPartsStep initUnitParts
        some (some
          { id := entry_id, name := name, points := points, stats := parts.stats,
            invuln := parts.invuln, weapons := parts.weapons,
            abilities := parts.abilities, keywords := extract_keywords entry })

/-- The description scan of `parse_enhancement`: the last `Abilities`
profile that has a `Description` characteristic wins. -/
def enhDescriptionStep (d : String) (profile : Elem) : String :=
  match ((profile.findAllDeep "characteristic").filter
          (fun ch => ch.attr? "name" == some "Description")).head? with
  | some ch => clean_text (ch.text.getD "")
  | none => d

def enhDescription (entry : Elem) : String :=
  ((entry.findAllDeep "profile").filter
    (fun p => p.attr? "typeName" == some "Abilities")).foldl enhDescriptionStep ""

/-- `parse_enhancement`: requires a nonempty `name`; the cost is the first
descendant `cost` carrying the points type or named `pts` (0 when none
matches); a cost of exactly 0 produces no record. -/
def parse_enhancement (entry : Elem) : Option (Option Enhancement) :=
  let name := entry.attrD "name" ""
  let entry_id := entry.attrD "id" ""
  if name = "" then some none
  else
    let ptsR : Option Int :=
      match ((entry.findAllDeep "cost").filter isPtsCost).head? with
      | none => some 0
      | some c => pyFloatInt? (c.attrD "value" "0")
    match ptsR with
    | none => none
    | some pts =>
      if pts = 0 then some none
      else some (some { id := entry_id, name := name, points := pts,
                        description := enhDescription entry })

/-- In-order `parse_enhancement` over a list of entries, keeping produced
records and propagating exceptions. -/
def enhFold : List Elem → List Enhancement → Option (List Enhancement)
  | [], acc => some acc
  | c :: cs, acc =>
    match parse_enhancement c with
    | none => none
    | some none => enhFold cs acc
    | some (some e) => enhFold cs (acc ++ [e])

/-- `parse_detachment`: requires a nonempty `name`; the rule comes from
the first `rule` descendant (its `description` child cleaned); the
enhancements from every descendant upgrade-typed `selectionEntry`. -/
def parse_detachment (entry : Elem) : Option (Option Detachment) :=
  let name := entry.attrD "name" ""
  let entry_id := entry.attrD "id" ""
  if name = "" then some none
  else
    let rulePair : String × String :=
      match (entry.findAllDeep "rule").head? with
      | none => ("", "")
      | some r =>
        match r.findChild "description" with
        | none => (r.attrD "name" "", "")
        | some d => (r.attrD "name" "", clean_text (d.text.getD ""))
    match enhFold ((entry.findAllDeep "selectionEntry").filter
                    (fun c => c.attr? "type" == some "upgrade")) [] with
    | none => none
    | some enhs =>
      some (some { id := entry_id, name := name, rule_name := rulePair.1,
                   rule_description := rulePair.2, enhancements := enhs })

/-! ## Sorting and deduplication

Python's `list.sort(key=...)` is a stable ascending sort; string keys
compare lexicographically by code point.  A stable ascending sort is
determined uniquely by the key order, so the insertion sort below produces
exactly the list the Python sort produces. -/

/-- Code-point lexicographic `≤` on strings as character lists (Python
string comparison). -/
def charListLe : List Char → List Char → Bool
  | [], _ => true
  | _ :: _, [] => false
  | a :: as, b :: bs =>
    if a.toNat < b.toNat then true
    else if b.toNat < a.toNat then false
    else charListLe as bs

def insertSorted {α : Type} (le : α → α → Bool) (a : α) : List α → List α
  | [] => [a]
  | b :: l => if le a b then a :: b :: l else b :: insertSorted le a l

/-- Stable insertion sort: an element is inserted before the first already
placed element it compares `≤` to, so equal keys keep their original
relative order. -/
def sortBy {α : Type} (le : α → α → Bool) : List α → List α
  | [] => []
  | a :: l => insertSorted le a (sortBy le l)

/-- The dedup list comprehension: keep an element iff its key was not seen
yet, recording kept keys. -/
def dedupByKey {α : Type} (key : α → String) : List String → List α → List α
  | _, [] => []
  | seen, x :: xs =>
    if key x ∈ seen then dedupByKey key seen xs
    else x :: dedupByKey key (key x :: seen) xs

def uLe (a b : Unit) : Bool := charListLe a.name.data b.name.data

def eLe (a b : Enhancement) : Bool := charListLe a.name.data b.name.data

def dLe (a b : Detachment) : Bool := charListLe a.name.data b.name.data

/-! ## Catalog Walker (`parse_bsdata_catalog`) -/

/-- The walker's accumulated state: the seen-identifier set (a list with
set membership) and the three collections. -/
structure WalkState : Type where
  processed : List String
  units : List Unit
  enhancements : List Enhancement
  detachments : List Detachment
deriving DecidableEq, Repr

def initWalkState : WalkState :=
  { processed := [], units := [], enhancements := [], detachments := [] }

/-- The detachment loop under a `Detachments` container: keep a parsed
detachment only when it resolved a nonempty rule name. -/
def detFold : List Elem → List Detachment → Option (List Detachment)
  | [], acc => some acc
  | c :: cs, acc =>
    match parse_detachment c with
    | none => none
    | some none => detFold cs acc
    | some (some d) =>
      if d.rule_name ≠ "" then detFold cs (acc ++ [d]) else detFold cs acc

/-- One iteration of the walker over a `selectionEntry`: skip
already-processed identifiers, then dispatch on the `type` attribute
(`unit`, `model` guarded by a positive direct `pts` cost, `upgrade` as
detachment container or enhancement); the identifier joins the seen-set
only when a unit or enhancement record is produced. -/
def walkStep (s : WalkState) (entry : Elem) : Option WalkState :=
  let entry_id := entry.attrD "id" ""
  let entry_type := entry.attrD "type" ""
  let name := entry.attrD "name" ""
  if entry_id ∈ s.processed then some s
  else if entry_type = "unit" then
    match parse_unit entry with
    | none => none
    | some none => some s
    | some (some u) =>
      some { s with units := s.units ++ [u], processed := s.processed ++ [entry_id] }
  else if entry_type = "model" then
    match ((entry.findPath2 "costs" "cost").filter
            (fun c => c.attr? "name" == some "pts")).head? with
    | none => some s
    | some c =>
      match pyFloatInt? (c.attrD "value" "0") with
      | none => none
      | some pts =>
        if pts > 0 then
          match parse_unit entry with
          | none => none
          | some none => some s
          | some (some u) =>
            some { s with units := s.units ++ [u], processed := s.processed ++ [entry_id] }
        else some s
  else if entry_type = "upgrade" then
    if name = "Detachments" then
      match detFold ((entry.findAllDeep "selectionEntry").filter
                      (fun c => c.attr? "type" == some "upgrade")) s.detachments with
      | none => none
      | some ds => some { s with detachments := ds }
    else
      match parse_enhancement entry with
      | none => none
      | some none => some s
      | some (some e) =>
        some { s with enhancements := s.enhancements ++ [e],
                      processed := s.processed ++ [entry_id] }
  else some s

def walkFold : List Elem → WalkState → Option WalkState
  | [], s => some s
  | e :: es, s =>
    match walkStep s e with
    | none => none
    | some s' => walkFold es s'

/-- `parse_bsdata_catalog` from the parsed document root onward (the file
read and the namespace-stripping regex are CLI-level I/O and not
modelled): walk every `selectionEntry` in document order, then sort the
three collections by name and deduplicate units and enhancements by name,
first post-sort occurrence kept. -/
def parse_bsdata_catalog (root : Elem) : Option Dataset :=
  match walkFold (root.preorder.filter (fun e => e.tag == "selectionEntry")) initWalkState with
  | none => none
  | some s =>
    some { units := dedupByKey (fun u => u.name) [] (sortBy uLe s.units),
           enhancements := dedupByKey (fun e => e.name) [] (sortBy eLe s.enhancements),
           detachments := sortBy dLe s.detachments }

/-! ## Reconciler: the stored (Warboard) side and `compare_data` -/

/-- A stored detachment: the fields `compare_data`/`sync_points` touch. -/
structure WbDet : Type where
  name : String
  enhancements : List Enhancement
deriving DecidableEq, Repr

/-- The stored Warboard dataset: a `units` list and a `detachments`
mapping from arbitrary keys to detachments with nested enhancements. -/
structure Warboard : Type where
  units : List Unit
  detachments : List (String × WbDet)
deriving DecidableEq, Repr

/-- A value-mismatch entry of the comparison report. -/
structure UnitDiff : Type where
  name : String
  warboard : Int
  bsdata : Int
deriving DecidableEq, Repr

/-- An entry of the `missing_in_warboard` list: a unit carries its whole
points table, an enhancement a single cost. -/
inductive MissingEntry : Type where
  | unit (name : String) (points : List (String × Int))
  | enh (name : String) (points : Int)
deriving DecidableEq, Repr

structure Comparison : Type where
  unit_differences : List UnitDiff
  enhancement_differences : List UnitDiff
  missing_in_warboard : List MissingEntry
  missing_in_bsdata : List String
  matching_units : Nat
  matching_enhancements : Nat
deriving DecidableEq, Repr

def initComparison : Comparison :=
  { unit_differences := [], enhancement_differences := [], missing_in_warboard := [],
    missing_in_bsdata := [], matching_units := 0, matching_enhancements := 0 }

/-- Python's `a.get(k) or min(values)`: the looked-up value when truthy
(nonzero), else the minimum of the fresh values (`none` = the
`ValueError` on an empty collection). -/
def pyOrBase (a : Option Int) (vals : List Int) : Option Int :=
  match a with
  | some v => if v ≠ 0 then some v else pyMinInt vals
  | none => pyMinInt vals

/-- The per-unit comparison of `compare_data`, for a stored unit whose
name was found in the fresh lookup: stored value at the stored minimum
key versus the fresh value at that key (with the `or`-fallback), then
either a mismatch entry or a match increment. -/
def compareUnitStep (c : Comparison) (nm : String) (wu bu : Unit) : Option Comparison :=
  match pyMinKeyByInt (wu.points.map Prod.fst) with
  | none => none
  | some wbMin =>
    match lookupD wu.points wbMin with
    | none => none
    | some wbBase =>
      match pyOrBase (lookupD bu.points wbMin) (bu.points.map Prod.snd) with
      | none => none
      | some bsBase =>
        if wbBase ≠ bsBase then
          some { c with unit_differences := c.unit_differences ++ [⟨nm, wbBase, bsBase⟩] }
        else
          some { c with matching_units := c.matching_units + 1 }

def unitsCompareFold (bsUnits : List (String × Unit)) :
    List (String × Unit) → Comparison → Option Comparison
  | [], c => some c
  | (nm, wu) :: rest, c =>
    match lookupD bsUnits nm with
    | some bu =>
      match compareUnitStep c nm wu bu with
      | none => none
      | some c' => unitsCompareFold bsUnits rest c'
    | none =>
      unitsCompareFold bsUnits rest
        { c with missing_in_bsdata := c.missing_in_bsdata ++ [nm] }

def missingUnitsScan (wbUnits bsUnits : List (String × Unit)) (c : Comparison) : Comparison :=
  bsUnits.foldl
    (fun c kv =>
      if (lookupD wbUnits kv.1).isSome then c
      else { c with missing_in_warboard := c.missing_in_warboard ++ [.unit kv.1 kv.2.points] })
    c

def enhCompareFold (bsEnh wbEnh : List (String × Int)) (c : Comparison) : Comparison :=
  wbEnh.foldl
    (fun c kv =>
      match lookupD bsEnh kv.1 with
      | some bpts =>
        if kv.2 ≠ bpts then
          { c with enhancement_differences := c.enhancement_differences ++ [⟨kv.1, kv.2, bpts⟩] }
        else { c with matching_enhancements := c.matching_enhancements + 1 }
      | none => c)
    c

def missingEnhScan (wbEnh bsEnh : List (String × Int)) (c : Comparison) : Comparison :=
  bsEnh.foldl
    (fun c kv =>
      if (lookupD wbEnh kv.1).isSome then c
      else { c with missing_in_warboard := c.missing_in_warboard ++ [.enh kv.1 kv.2] })
    c

/-- `compare_data` from the two in-memory datasets onward (reading the
stored JSON file is CLI-level I/O and not modelled). -/
def compare_data (bsdata : Dataset) (wb : Warboard) : Option Comparison :=
  let bsUnits := mkDict (bsdata.units.map (fun u => (u.name, u)))
  let wbUnits := mkDict (wb.units.map (fun u => (u.name, u)))
  let bsEnh := mkDict (bsdata.enhancements.map (fun e => (e.name, e.points)))
  let wbEnh := wb.detachments.foldl
    (fun d kd => kd.2.enhancements.foldl (fun d2 e => updD e.name e.points d2) d) []
  match unitsCompareFold bsUnits wbUnits initComparison with
  | none => none
  | some c1 =>
    let c2 := missingUnitsScan wbUnits bsUnits c1
    let c3 := enhCompareFold bsEnh wbEnh c2
    some (missingEnhScan wbEnh bsEnh c3)

/-! ## Reconciler: `sync_points` -/

/-- Python `str(x)` on the result of `dict.get`: `None` or the integer. -/
def showOptInt : Option Int → String
  | none => "None"
  | some n => toString n

/-- Surround with single quotes, as the f-string literals do. -/
def sq (s : String) : String :=
  String.singleton (Char.ofNat 39) ++ s ++ String.singleton (Char.ofNat 39)

/-- The unit change-log f-string
`Unit '{name}' ({count} models): {old} -> {pts}`. -/
def unitChangeLine (name count : String) (old : Option Int) (pts : Int) : String :=
  "Unit " ++ sq name ++ " (" ++ count ++ " models): " ++ showOptInt old
    ++ " -> " ++ toString pts

/-- The enhancement change-log f-string
`Enhancement '{name}': {old} -> {pts}`. -/
def enhChangeLine (name : String) (old pts : Int) : String :=
  "Enhancement " ++ sq name ++ ": " ++ toString old ++ " -> " ++ toString pts

/-- The inner points loop of `sync_points` for one unit: for each fresh
`(count, pts)` item whose value differs from the stored entry (or whose
key is absent), log a change line and write the fresh value. -/
def syncPointsTable (name : String) (stored fresh : List (String × Int))
    (logs : List String) : List (String × Int) × List String :=
  match fresh with
  | [] => (stored, logs)
  | kv :: rest =>
    if lookupD stored kv.1 == some kv.2 then syncPointsTable name stored rest logs
    else
      syncPointsTable name (updD kv.1 kv.2 stored) rest
        (logs ++ [unitChangeLine name kv.1 (lookupD stored kv.1) kv.2])

/-- The per-enhancement update of `sync_points`. -/
def syncEnh (bsEnh : List (String × Enhancement)) (e : Enhancement)
    (logs : List String) : Enhancement × List String :=
  match lookupD bsEnh e.name with
  | none => (e, logs)
  | some be =>
    if e.points ≠ be.points then
      ({ e with points := be.points }, logs ++ [enhChangeLine e.name e.points be.points])
    else (e, logs)

/-- One iteration of the unit loop of `sync_points`, threading the
(patched units, change log) pair. -/
def syncUnitStep (bsUnits : List (String × Unit)) (acc : List Unit × List String)
    (u : Unit) : List Unit × List String :=
  match lookupD bsUnits u.name with
  | none => (acc.1 ++ [u], acc.2)
  | some bu =>
    (acc.1 ++ [{ u with points := (syncPointsTable u.name u.points bu.points acc.2).1 }],
     (syncPointsTable u.name u.points bu.points acc.2).2)

/-- One iteration of the enhancement loop of `sync_points`. -/
def syncEnhStep (bsEnh : List (String × Enhancement))
    (acc2 : List Enhancement × List String) (e : Enhancement) :
    List Enhancement × List String :=
  ((acc2.1 ++ [(syncEnh bsEnh e acc2.2).1]), (syncEnh bsEnh e acc2.2).2)

/-- One iteration of the detachment loop of `sync_points`. -/
def syncDetStep (bsEnh : List (String × Enhancement))
    (acc : List (String × WbDet) × List String) (kd : String × WbDet) :
    List (String × WbDet) × List String :=
  ((acc.1 ++ [(kd.1,
      { kd.2 with enhancements := (kd.2.enhancements.foldl (syncEnhStep bsEnh) ([], acc.2)).1 })]),
   (kd.2.enhancements.foldl (syncEnhStep bsEnh) ([], acc.2)).2)

/-- `sync_points` from the two in-memory datasets onward: patch unit
points tables and enhancement costs in the stored dataset from the fresh
one, returning the patched dataset and the ordered change log (file
reading/writing and the confirmation prompt are CLI-level and not
modelled). -/
def sync_points (bsdata : Dataset) (wb : Warboard) : Warboard × List String :=
  let bsUnits := mkDict (bsdata.units.map (fun u => (u.name, u)))
  let bsEnh := mkDict (bsdata.enhancements.map (fun e => (e.name, e)))
  let unitsAcc := wb.units.foldl (syncUnitStep bsUnits) ([], [])
  let detsAcc := wb.detachments.foldl (syncDetStep bsEnh) ([], unitsAcc.2)
  ({ units := unitsAcc.1, detachments := detsAcc.1 }, detsAcc.2)

/-! ## Concrete test inputs for the claim scenarios -/

/-- Is a points-table key the decimal form of a positive integer? -/
def keyPosB (k : String) : Bool :=
  match pyInt? k with
  | some n => decide (0 < n)
  | none => false

/-- A points cost element with the given value. -/
def costPts (v : String) : Elem :=
  el "cost" [("typeId", POINTS_TYPE_ID), ("value", v)] none []

/-- A `costs` wrapper holding one points cost. -/
def costsOf (v : String) : Elem :=
  el "costs" [] none [costPts v]

/-- A min/selections constraint with the given value. -/
def minSel (v : String) : Elem :=
  el "constraint" [("type", "min"), ("field", "selections"), ("value", v)] none []

/-- A `set` modifier on the points field, with one selections condition. -/
def setModifier (pts cond : String) : Elem :=
  el "modifier" [("type", "set"), ("field", POINTS_TYPE_ID), ("value", pts)] none
    [el "conditions" [] none
      [el "condition" [("field", "selections"), ("value", cond)] none []]]

/-- The cost-resolution scenario entry: base cost 100, two min/selections
constraints (the first valued "5"), one modifier setting 190 at "10". -/
def scalingEntry : Elem :=
  el "selectionEntry" [("id", "u1"), ("name", "Custodian Guard"), ("type", "unit")] none
    [costsOf "100",
     el "constraints" [] none [minSel "5", minSel "7"],
     el "modifiers" [] none [setModifier "190" "10"]]

/-- The same entry without any constraint (minimum count defaults to 1). -/
def scalingEntryNoCon : Elem :=
  el "selectionEntry" [("id", "u1"), ("name", "Custodian Guard"), ("type", "unit")] none
    [costsOf "100",
     el "modifiers" [] none [setModifier "190" "10"]]

/-- A unit entry whose min/selections constraint is valued "0": the base
cost is recorded under the key "0". -/
def zeroKeyEntry : Elem :=
  el "selectionEntry" [("id", "z1"), ("name", "U"), ("type", "unit")] none
    [costsOf "100",
     el "constraints" [] none [minSel "0"]]

/-- An upgrade entry whose points cost is the negative value "-5". -/
def negCostEntry : Elem :=
  el "selectionEntry" [("id", "e1"), ("name", "E"), ("type", "upgrade")] none
    [costsOf "-5"]

/-- An upgrade entry with the positive cost 25. -/
def posCostEntry : Elem :=
  el "selectionEntry" [("id", "e2"), ("name", "F"), ("type", "upgrade")] none
    [costsOf "25"]

/-- A document with two unit entries of the same name and different
identifiers (the name-dedup scenario). -/
def dupNameDoc : Elem :=
  el "catalogue" [] none
    [el "selectionEntry" [("id", "a"), ("name", "Custodian Guard"), ("type", "unit")] none
      [costsOf "45"],
     el "selectionEntry" [("id", "b"), ("name", "Custodian Guard"), ("type", "unit")] none
      [costsOf "50"]]

/-- A document with two unit entries that both lack an `id` attribute and
have different names (the empty-identifier collision scenario). -/
def noIdDoc : Elem :=
  el "catalogue" [] none
    [el "selectionEntry" [("name", "First"), ("type", "unit")] none [costsOf "45"],
     el "selectionEntry" [("name", "Second"), ("type", "unit")] none [costsOf "50"]]

/-- The keyword-filtering scenario entry. -/
def keywordEntry : Elem :=
  el "selectionEntry" [("name", "X")] none
    [el "categoryLinks" [] none
      [el "categoryLink" [("name", "Configuration")] none [],
       el "categoryLink" [("name", "Faction: Adeptus Custodes")] none [],
       el "categoryLink" [("name", "Infantry")] none []]]

/-- A stored unit named Custodian Guard with points table mapping "3" to
the given cost and all other fields empty. -/
def cgUnit (pts : Int) : Unit :=
  { id := "", name := "Custodian Guard", points := [("3", pts)], stats := [],
    invuln := none, weapons := [], abilities := [], keywords := [] }

/-- The stored dataset of the diff/merge scenario. -/
def cgStored : Warboard :=
  { units := [cgUnit 110], detachments := [] }

/-- The fresh dataset of the diff/merge scenario. -/
def cgFresh : Dataset :=
  { units := [cgUnit 120], enhancements := [], detachments := [] }

/-- A fresh Custodian Guard whose table has the stored key "3" at the
stored value plus a new key "6" (the key-addition scenario). -/
def cgFreshWide : Dataset :=
  { units := [{ cgUnit 110 with points := [("3", 110), ("6", 220)] }],
    enhancements := [], detachments := [] }

/-- The second, id-less entry of `noIdDoc` on its own. -/
def noIdSecond : Elem :=
  el "selectionEntry" [("name", "Second"), ("type", "unit")] none [costsOf "50"]

/-! ## Specification-side helper functions used by the theorems -/

/-- Hypothesis under which every key the cost resolver writes is a
positive-integer numeral: the inferred minimum count renders as a
positive-integer key, and every nonempty selections-condition value under
a `set`-points modifier is a positive-integer numeral. -/
def entryKeysOkB (e : Elem) : Bool :=
  (match minCount? e with
   | some m => keyPosB (toString m)
   | none => true)
  && (e.findAllDeep "modifier").all (fun m =>
       !(m.attr? "type" == some "set" && m.attr? "field" == some POINTS_TYPE_ID) ||
       (m.findAllDeep "condition").all (fun c =>
         !(containsSub (c.attrD "field" "").data "selections".data) ||
         c.attrD "value" "" == "" || keyPosB (c.attrD "value" "")))

/-- The points table `syncPointsTable` produces, separated from the log
thread: write each fresh item whose value differs from the current entry. -/
def mergeTbl : List (String × Int) → List (String × Int) → List (String × Int)
  | s, [] => s
  | s, kv :: rest =>
    if lookupD s kv.1 == some kv.2 then mergeTbl s rest
    else mergeTbl (updD kv.1 kv.2 s) rest

/-- The change lines `syncPointsTable` appends, separated from the table
thread. -/
def changeLines (n : String) : List (String × Int) → List (String × Int) → List String
  | _, [] => []
  | s, kv :: rest =>
    if lookupD s kv.1 == some kv.2 then changeLines n s rest
    else unitChangeLine n kv.1 (lookupD s kv.1) kv.2 :: changeLines n (updD kv.1 kv.2 s) rest

/-- The fresh-unit lookup `sync_points` builds. -/
def bsUnitsDict (bsdata : Dataset) : List (String × Unit) :=
  mkDict (bsdata.units.map (fun u => (u.name, u)))

/-- The fresh-enhancement lookup `sync_points` builds. -/
def bsEnhDict (bsdata : Dataset) : List (String × Enhancement) :=
  mkDict (bsdata.enhancements.map (fun e => (e.name, e)))

/-- What `sync_points` does to one stored unit: points replaced by the
merged table when the name is found in the fresh lookup, everything else
kept. -/
def patchU (bsUnits : List (String × Unit)) (u : Unit) : Unit :=
  match lookupD bsUnits u.name with
  | none => u
  | some bu => { u with points := mergeTbl u.points bu.points }

/-- What `sync_points` does to one stored enhancement. -/
def patchE (bsEnh : List (String × Enhancement)) (e : Enhancement) : Enhancement :=
  match lookupD bsEnh e.name with
  | none => e
  | some be => if e.points ≠ be.points then { e with points := be.points } else e

/-- What `sync_points` does to one stored detachment entry. -/
def patchD (bsEnh : List (String × Enhancement)) (kd : String × WbDet) : String × WbDet :=
  (kd.1, { kd.2 with enhancements := kd.2.enhancements.map (patchE bsEnh) })

/-! ## Association-list lemmas -/

theorem lookupD_mem {α : Type} {l : List (String × α)} {k : String} {v : α}
    (h : lookupD l k = some v) : (k, v) ∈ l := by
  induction l with
  | nil => simp [lookupD] at h
  | cons kv rest ih =>
    obtain ⟨a, b⟩ := kv
    rw [lookupD] at h
    split at h
    · obtain rfl : b = v := Option.some.inj h
      rename_i ha
      subst ha
      exact List.mem_cons_self _ _
    · exact List.mem_cons_of_mem _ (ih h)

theorem lookupD_updD {α : Type} (k : String) (v : α) (l : List (String × α)) (q : String) :
    lookupD (updD k v l) q = if k = q then some v else lookupD l q := by
  induction l with
  | nil => simp [updD, lookupD]
  | cons kv rest ih =>
    obtain ⟨a, b⟩ := kv
    rw [updD]
    by_cases hak : a = k
    · subst hak
      rw [if_pos rfl, lookupD, lookupD]
      by_cases haq : a = q
      · subst haq; simp
      · simp [haq]
    · rw [if_neg hak, lookupD, lookupD]
      by_cases haq : a = q
      · subst haq
        have hka : ¬ k = a := fun h => hak h.symm
        simp [hka]
      · simp [haq, ih]

theorem mem_updD_key {α : Type} {kv : String × α} {k : String} {v : α}
    {l : List (String × α)} (h : kv ∈ updD k v l) : kv.1 = k ∨ kv ∈ l := by
  induction l with
  | nil =>
    simp [updD] at h
    subst h; exact Or.inl rfl
  | cons hd rest ih =>
    obtain ⟨a, b⟩ := hd
    rw [updD] at h
    split at h
    · rcases List.mem_cons.mp h with h1 | h1
      · subst h1; exact Or.inl rfl
      · exact Or.inr (List.mem_cons_of_mem _ h1)
    · rcases List.mem_cons.mp h with h1 | h1
      · subst h1; exact Or.inr (List.mem_cons_self _ _)
      · rcases ih h1 with h2 | h2
        · exact Or.inl h2
        · exact Or.inr (List.mem_cons_of_mem _ h2)

theorem updD_ne_nil {α : Type} (k : String) (v : α) (l : List (String × α)) :
    updD k v l ≠ [] := by
  cases l with
  | nil => simp [updD]
  | cons hd rest =>
    obtain ⟨a, b⟩ := hd
    rw [updD]
    split <;> simp

/-! ## C8: numeric coercion -/

/-- C8: `parse_stat_value` strips quote-like unit markers and whitespace
and returns the integer when the remainder parses as one, the trimmed
text unchanged when it does not, and integer 0 on empty input; in
particular it maps a quoted 6 to the integer 6, the token `2+` to itself,
the empty string to 0 and `10` to 10. -/
theorem C8_parse_stat_value :
    (∀ v : String, v ≠ "" →
      parse_stat_value v =
        (match pyInt? (stripStat v) with
         | some n => StatVal.int n
         | none => StatVal.str (stripStat v)))
    ∧ parse_stat_value "" = StatVal.int 0
    ∧ parse_stat_value "6\"" = StatVal.int 6
    ∧ parse_stat_value "2+" = StatVal.str "2+"
    ∧ parse_stat_value "10" = StatVal.int 10 := by
  refine ⟨fun v hv => ?_, rfl, rfl, rfl, rfl⟩
  rw [parse_stat_value, if_neg hv]

/-- Witness for C8: the general clause evaluated at the concrete
input `10`. -/
theorem C8_witness :
    parse_stat_value "10" =
      (match pyInt? (stripStat "10") with
       | some n => StatVal.int n
       | none => StatVal.str (stripStat "10")) :=
  C8_parse_stat_value.1 "10" (by decide)

/-! ## C7: keyword extraction -/

theorem keywords_foldl_eq (ls : List Elem) (acc : List String) :
    ls.foldl
      (fun keywords cl =>
        let name := cl.attrD "name" ""
        if name ≠ "" ∧ name ≠ "Configuration" ∧ name ≠ "Faction:" then
          keywords ++ [stripFaction name]
        else keywords)
      acc
    = acc ++ ((ls.map (fun cl => cl.attrD "name" "")).filter
        (fun n => decide (n ≠ "" ∧ n ≠ "Configuration" ∧ n ≠ "Faction:"))).map stripFaction := by
  induction ls generalizing acc with
  | nil => simp
  | cons c cs ih =>
    simp only [List.foldl_cons, List.map_cons, List.filter_cons]
    by_cases hc : (c.attrD "name" "") ≠ "" ∧ (c.attrD "name" "") ≠ "Configuration" ∧
        (c.attrD "name" "") ≠ "Faction:"
    · rw [if_pos hc, ih, decide_eq_true hc]
      simp
    · rw [if_neg hc, ih]
      have : decide ((c.attrD "name" "") ≠ "" ∧ (c.attrD "name" "") ≠ "Configuration" ∧
          (c.attrD "name" "") ≠ "Faction:") = false := decide_eq_false hc
      rw [this]
      simp

/-- C7: keyword extraction collects every category-link descendant's name
attribute in document order, dropping absent names and exactly the
literals `Configuration` and `Faction:`, and stripping a leading
`Faction:` prefix from what it keeps; in particular the three links of
the scenario yield `Adeptus Custodes` then `Infantry`. -/
theorem C7_extract_keywords :
    (∀ e : Elem,
      extract_keywords e =
        (((e.findAllDeep "categoryLink").map (fun cl => cl.attrD "name" "")).filter
          (fun n => decide (n ≠ "" ∧ n ≠ "Configuration" ∧ n ≠ "Faction:"))).map stripFaction)
    ∧ extract_keywords keywordEntry = ["Adeptus Custodes", "Infantry"] := by
  constructor
  · intro e
    rw [extract_keywords, keywords_foldl_eq]
    simp
  · rfl

/-! ## C2: cost-scaling resolution -/

/-- C2: on the scenario entry (base cost 100, first min/selections
constraint valued "5", a second constraint valued "7" showing only the
first is used, and one `set` modifier of 190 conditioned on selections
"10") the resolver yields the table mapping "5" to 100 and "10" to 190;
with no constraint present, the base cost is keyed by the default
minimum count 1. -/
theorem C2_extract_points_scaling :
    extract_points_scaling scalingEntry = some [("5", 100), ("10", 190)]
    ∧ extract_points_scaling scalingEntryNoCon = some [("1", 100), ("10", 190)] :=
  ⟨rfl, rfl⟩

/-! ## C5: enhancement cost positivity (refuted: only zero is dropped) -/

/-- C5 counterexample: the upgrade entry whose points cost reads `-5` is
materialized as an Enhancement with the non-positive cost -5, so not
every emitted Enhancement has a strictly positive cost. -/
theorem C5_counterexample :
    parse_enhancement negCostEntry =
      some (some { id := "e1", name := "E", points := -5, description := "" })
    ∧ ¬ (0 < (-5 : Int)) :=
  ⟨rfl, by decide⟩

/-- C5 amended: every Enhancement record emitted by `parse_enhancement`
has a nonzero point cost, and an upgrade entry whose resolved cost is
exactly zero produces no record (the code guard is `pts == 0`, so a
negative cost still materializes). -/
theorem C5_parse_enhancement_nonzero :
    ∀ (e : Elem) (enh : Enhancement),
      parse_enhancement e = some (some enh) → enh.points ≠ 0 := by
  intro e enh h
  simp only [parse_enhancement] at h
  split at h
  · exact absurd h (by simp)
  · split at h
    · exact absurd h (by simp)
    · split at h
      · exact absurd h (by simp)
      · rename_i hne
        have h2 := Option.some.inj (Option.some.inj h)
        rw [← h2]
        exact hne

/-- Witness for C5: the amended theorem applied to the concrete upgrade
entry costing 25. -/
theorem C5_witness :
    ({ id := "e2", name := "F", points := 25, description := "" } : Enhancement).points ≠ 0 :=
  C5_parse_enhancement_nonzero posCostEntry _ rfl

/-! ## C1: unit points-table invariants -/

theorem baseCostFold_keys {e : Elem}
    (hmin : ∀ m, minCount? e = some m → keyPosB (toString m) = true) :
    ∀ (cs : List Elem) (p p' : List (String × Int)),
      baseCostFold e cs p = some p' →
      (∀ kv ∈ p, keyPosB kv.1 = true) → (∀ kv ∈ p', keyPosB kv.1 = true) := by
  intro cs
  induction cs with
  | nil =>
    intro p p' h hp
    rw [baseCostFold] at h
    rw [← Option.some.inj h]
    exact hp
  | cons c cs ih =>
    intro p p' h hp
    rw [baseCostFold] at h
    cases hb : baseCostStep e p c with
    | none => rw [hb] at h; exact absurd h (by simp)
    | some p1 =>
      rw [hb] at h
      refine ih p1 p' h ?_
      intro kv hkv
      rw [baseCostStep] at hb
      split at hb
      · split at hb
        · exact absurd hb (by simp)
        · rename_i base_pts hparse
          split at hb
          · split at hb
            · exact absurd hb (by simp)
            · rename_i min_count hmc
              rw [← Option.some.inj hb] at hkv
              rcases mem_updD_key hkv with hk | hk
              · rw [hk]; exact hmin min_count hmc
              · exact hp kv hk
          · rw [← Option.some.inj hb] at hkv
            exact hp kv hkv
      · rw [← Option.some.inj hb] at hkv
        exact hp kv hkv

theorem condFold_keys (pts : Int) :
    ∀ (conds : List Elem),
      (∀ c ∈ conds, containsSub (c.attrD "field" "").data "selections".data = true →
        c.attrD "value" "" ≠ "" → keyPosB (c.attrD "value" "") = true) →
      ∀ p, (∀ kv ∈ p, keyPosB kv.1 = true) →
        ∀ kv ∈ conds.foldl (condStep pts) p, keyPosB kv.1 = true := by
  intro conds
  induction conds with
  | nil =>
    intro _ p hp kv hkv
    simpa using hp kv (by simpa using hkv)
  | cons c cs ih =>
    intro hc p hp
    rw [List.foldl_cons]
    refine ih (fun d hd => hc d (List.mem_cons_of_mem _ hd)) (condStep pts p c) ?_
    intro kv hkv
    rw [condStep] at hkv
    split at hkv
    · rename_i hfield
      split at hkv
      · rename_i hcnt
        rcases mem_updD_key hkv with hk | hk
        · rw [hk]
          exact hc c (List.mem_cons_self _ _) hfield hcnt.1
        · exact hp kv hk
      · exact hp kv hkv
    · exact hp kv hkv

theorem modifierFold_keys :
    ∀ (ms : List Elem),
      (∀ m ∈ ms,
        (m.attr? "type" == some "set" && m.attr? "field" == some POINTS_TYPE_ID) = true →
        ∀ c ∈ m.findAllDeep "condition",
          containsSub (c.attrD "field" "").data "selections".data = true →
          c.attrD "value" "" ≠ "" → keyPosB (c.attrD "value" "") = true) →
      ∀ p p', modifierFold ms p = some p' →
        (∀ kv ∈ p, keyPosB kv.1 = true) → ∀ kv ∈ p', keyPosB kv.1 = true := by
  intro ms
  induction ms with
  | nil =>
    intro _ p p' h hp
    rw [modifierFold] at h
    rw [← Option.some.inj h]
    exact hp
  | cons m ms ih =>
    intro hm p p' h hp
    rw [modifierFold] at h
    cases hs : modifierStep p m with
    | none => rw [hs] at h; exact absurd h (by simp)
    | some p1 =>
      rw [hs] at h
      refine ih (fun d hd => hm d (List.mem_cons_of_mem _ hd)) p1 p' h ?_
      rw [modifierStep] at hs
      split at hs
      · rename_i hmatch
        split at hs
        · exact absurd hs (by simp)
        · rename_i pts hparse
          rw [← Option.some.inj hs]
          exact condFold_keys pts _ (hm m (List.mem_cons_self _ _) hmatch) p hp
      · rw [← Option.some.inj hs]
        exact hp

/-- The Bool hypothesis `entryKeysOkB` unpacked and pushed through the
cost resolver: every key of the resolved table is a positive-integer
numeral. -/
theorem extract_points_scaling_keys {e : Elem} {pts : List (String × Int)}
    (hok : entryKeysOkB e = true) (h : extract_points_scaling e = some pts) :
    ∀ kv ∈ pts, keyPosB kv.1 = true := by
  rw [entryKeysOkB, Bool.and_eq_true] at hok
  obtain ⟨hok1, hok2⟩ := hok
  have hmin : ∀ m, minCount? e = some m → keyPosB (toString m) = true := by
    intro m hm
    rw [hm] at hok1
    exact hok1
  have hmods : ∀ m ∈ e.findAllDeep "modifier",
      (m.attr? "type" == some "set" && m.attr? "field" == some POINTS_TYPE_ID) = true →
      ∀ c ∈ m.findAllDeep "condition",
        containsSub (c.attrD "field" "").data "selections".data = true →
        c.attrD "value" "" ≠ "" → keyPosB (c.attrD "value" "") = true := by
    rw [List.all_eq_true] at hok2
    intro m hm hmatch c hc hfield hcnt
    have h2 := hok2 m hm
    rw [hmatch] at h2
    simp only [Bool.not_true, Bool.false_or, List.all_eq_true] at h2
    have h3 := h2 c hc
    rw [hfield] at h3
    simp only [Bool.not_true, Bool.false_or, Bool.or_eq_true] at h3
    rcases h3 with h3 | h3
    · exact absurd (eq_of_beq h3) hcnt
    · exact h3
  rw [extract_points_scaling] at h
  cases hb : baseCostFold e (e.findPath2 "costs" "cost") [] with
  | none => rw [hb] at h; exact absurd h (by simp)
  | some p1 =>
    rw [hb] at h
    have hp1 : ∀ kv ∈ p1, keyPosB kv.1 = true :=
      baseCostFold_keys hmin _ [] p1 hb (by intro kv hkv; simp at hkv)
    exact modifierFold_keys _ hmods p1 pts h hp1

/-- C1 counterexample: the unit entry whose min/selections constraint is
valued "0" is materialized with the points table keyed by "0", which is
not a positive integer, so not every emitted Unit has only
positive-integer keys. -/
theorem C1_counterexample :
    parse_unit zeroKeyEntry =
      some (some { id := "z1", name := "U", points := [("0", 100)], stats := [],
                   invuln := none, weapons := [], abilities := [], keywords := [] })
    ∧ keyPosB "0" = false :=
  ⟨rfl, rfl⟩

/-- C1 amended: every Unit record emitted by `parse_unit` has a nonempty
points table unconditionally; and when the entry's inferred minimum count
renders as a positive-integer key and every nonempty selections-condition
value under a `set`-points modifier is a positive-integer numeral
(`entryKeysOkB`), every key of the table is parseable as a positive
integer.  (The unconditional key claim fails: constraint and condition
values flow into keys unvalidated.) -/
theorem C1_parse_unit_points :
    ∀ (e : Elem) (u : Unit), parse_unit e = some (some u) →
      u.points ≠ [] ∧
      (entryKeysOkB e = true → ∀ kv ∈ u.points, keyPosB kv.1 = true) := by
  intro e u h
  simp only [parse_unit] at h
  split at h
  · exact absurd h (by simp)
  · split at h
    · exact absurd h (by simp)
    · rename_i points hpts
      split at h
      · exact absurd h (by simp)
      · rename_i hne
        have h2 := Option.some.inj (Option.some.inj h)
        constructor
        · rw [← h2]
          exact hne
        · intro hok kv hkv
          rw [← h2] at hkv
          exact extract_points_scaling_keys hok hpts kv hkv

/-- Witness for C1: the amended theorem applied to the scenario entry,
whose keys "5" and "10" are positive-integer numerals. -/
theorem C1_witness :
    ([("5", (100 : Int)), ("10", 190)] : List (String × Int)) ≠ [] ∧
    ∀ kv ∈ ([("5", (100 : Int)), ("10", 190)] : List (String × Int)), keyPosB kv.1 = true := by
  have h := C1_parse_unit_points scalingEntry
    { id := "u1", name := "Custodian Guard", points := [("5", 100), ("10", 190)],
      stats := [], invuln := none, weapons := [], abilities := [],
      keywords := [] } rfl
  exact ⟨h.1, h.2 (by decide)⟩

/-! ## C10: the seen-set keyed by identifier, empty-string collisions -/

/-- C10: the walker skips any entry whose identifier attribute is missing
(mapped to the empty-string key) once the empty string entered the
seen-set; an identifier is added to the seen-set only together with a
produced unit or enhancement record (every other outcome leaves seen-set,
units and enhancements unchanged); consequently, in the concrete document
whose two unit entries both lack `id`, only the first yields a Unit even
though the second parses to a valid record on its own. -/
theorem C10_walker_empty_id :
    (∀ (s : WalkState) (e : Elem), "" ∈ s.processed → e.attrD "id" "" = "" →
       walkStep s e = some s)
    ∧ (∀ (s : WalkState) (e : Elem) (s' : WalkState), walkStep s e = some s' →
        (s'.processed = s.processed ∧ s'.units = s.units ∧ s'.enhancements = s.enhancements)
        ∨ (s'.processed = s.processed ++ [e.attrD "id" ""] ∧
           ((∃ u, s'.units = s.units ++ [u] ∧ s'.enhancements = s.enhancements)
            ∨ ∃ en, s'.enhancements = s.enhancements ++ [en] ∧ s'.units = s.units)))
    ∧ (parse_bsdata_catalog noIdDoc).map (fun d => d.units.map (fun u => u.name)) = some ["First"]
    ∧ (parse_unit noIdSecond).isSome = true ∧ parse_unit noIdSecond ≠ some none := by
  refine ⟨?_, ?_, rfl, rfl, by decide⟩
  · intro s e hin hid
    simp only [walkStep, hid]
    rw [if_pos hin]
  · intro s e s' h
    simp only [walkStep] at h
    split at h
    · left; rw [← Option.some.inj h]; exact ⟨rfl, rfl, rfl⟩
    · split at h
      · split at h
        · exact absurd h (by simp)
        · left; rw [← Option.some.inj h]; exact ⟨rfl, rfl, rfl⟩
        · right; rw [← Option.some.inj h]; exact ⟨rfl, Or.inl ⟨_, rfl, rfl⟩⟩
      · split at h
        · split at h
          · left; rw [← Option.some.inj h]; exact ⟨rfl, rfl, rfl⟩
          · split at h
            · exact absurd h (by simp)
            · split at h
              · split at h
                · exact absurd h (by simp)
                · left; rw [← Option.some.inj h]; exact ⟨rfl, rfl, rfl⟩
                · right; rw [← Option.some.inj h]; exact ⟨rfl, Or.inl ⟨_, rfl, rfl⟩⟩
              · left; rw [← Option.some.inj h]; exact ⟨rfl, rfl, rfl⟩
        · split at h
          · split at h
            · split at h
              · exact absurd h (by simp)
              · left; rw [← Option.some.inj h]; exact ⟨rfl, rfl, rfl⟩
            · split at h
              · exact absurd h (by simp)
              · left; rw [← Option.some.inj h]; exact ⟨rfl, rfl, rfl⟩
              · right; rw [← Option.some.inj h]; exact ⟨rfl, Or.inr ⟨_, rfl, rfl⟩⟩
          · left; rw [← Option.some.inj h]; exact ⟨rfl, rfl, rfl⟩

/-- Witness for C10: the skip clause and the classification clause
applied to a concrete state and the concrete id-less entry. -/
theorem C10_witness :
    walkStep { processed := [""], units := [], enhancements := [], detachments := [] }
        noIdSecond =
      some { processed := [""], units := [], enhancements := [], detachments := [] } := by
  exact C10_walker_empty_id.1 _ noIdSecond (by decide) (by decide)

/-! ## Sorting and dedup lemmas (for C6) -/

theorem charListLe_total : ∀ x y : List Char, charListLe x y = true ∨ charListLe y x = true := by
  intro x
  induction x with
  | nil => intro y; left; rw [charListLe]
  | cons a as ih =>
    intro y
    cases y with
    | nil => right; rw [charListLe]
    | cons b bs =>
      rw [charListLe, charListLe]
      rcases Nat.lt_trichotomy a.toNat b.toNat with h | h | h
      · left; rw [if_pos h]
      · rw [h]
        simp only [lt_irrefl, if_false]
        exact ih bs
      · right; rw [if_pos h]

theorem charListLe_trans : ∀ x y z : List Char,
    charListLe x y = true → charListLe y z = true → charListLe x z = true := by
  intro x
  induction x with
  | nil => intro y z _ _; rw [charListLe]
  | cons a as ih =>
    intro y z hxy hyz
    cases y with
    | nil => rw [charListLe] at hxy; exact absurd hxy (by simp)
    | cons b bs =>
      cases z with
      | nil => rw [charListLe] at hyz; exact absurd hyz (by simp)
      | cons c cs =>
        rw [charListLe] at hxy hyz ⊢
        rcases Nat.lt_trichotomy a.toNat b.toNat with hab | hab | hab
        · rcases Nat.lt_trichotomy b.toNat c.toNat with hbc | hbc | hbc
          · rw [if_pos (Nat.lt_trans hab hbc)]
          · rw [if_pos (hbc ▸ hab)]
          · rw [if_neg (Nat.lt_asymm hbc), if_pos hbc] at hyz
            exact absurd hyz (by simp)
        · rcases Nat.lt_trichotomy b.toNat c.toNat with hbc | hbc | hbc
          · rw [if_pos (hab ▸ hbc)]
          · have hac : a.toNat = c.toNat := hab.trans hbc
            rw [if_neg (hac ▸ lt_irrefl _), if_neg (hac ▸ lt_irrefl _)]
            rw [if_neg (hab ▸ lt_irrefl _), if_neg (hab ▸ lt_irrefl _)] at hxy
            rw [if_neg (hbc ▸ lt_irrefl _), if_neg (hbc ▸ lt_irrefl _)] at hyz
            exact ih bs cs hxy hyz
          · rw [if_neg (Nat.lt_asymm hbc), if_pos hbc] at hyz
            exact absurd hyz (by simp)
        · rw [if_neg (Nat.lt_asymm hab), if_pos hab] at hxy
          exact absurd hxy (by simp)

theorem mem_insertSorted {α : Type} (le : α → α → Bool) (a x : α) :
    ∀ l : List α, x ∈ insertSorted le a l ↔ x = a ∨ x ∈ l := by
  intro l
  induction l with
  | nil => simp [insertSorted]
  | cons b t ih =>
    rw [insertSorted]
    split
    · rw [List.mem_cons]
    · rw [List.mem_cons, ih, List.mem_cons]
      tauto

theorem pairwise_insertSorted {α : Type} {le : α → α → Bool}
    (htot : ∀ x y, le x y = true ∨ le y x = true)
    (htrans : ∀ x y z, le x y = true → le y z = true → le x z = true)
    (a : α) : ∀ l : List α, l.Pairwise (fun x y => le x y = true) →
      (insertSorted le a l).Pairwise (fun x y => le x y = true) := by
  intro l
  induction l with
  | nil => intro _; simp [insertSorted]
  | cons b t ih =>
    intro hp
    rcases List.pairwise_cons.mp hp with ⟨hb, ht⟩
    rw [insertSorted]
    split
    · rename_i hab
      refine List.pairwise_cons.mpr ⟨?_, hp⟩
      intro x hx
      rcases List.mem_cons.mp hx with rfl | hx
      · exact hab
      · exact htrans a b x hab (hb x hx)
    · rename_i hab
      have hba : le b a = true := (htot a b).resolve_left (by simpa using hab)
      refine List.pairwise_cons.mpr ⟨?_, ih ht⟩
      intro x hx
      rcases (mem_insertSorted le a x t).mp hx with rfl | hx
      · exact hba
      · exact hb x hx

theorem sortBy_pairwise {α : Type} {le : α → α → Bool}
    (htot : ∀ x y, le x y = true ∨ le y x = true)
    (htrans : ∀ x y z, le x y = true → le y z = true → le x z = true) :
    ∀ l : List α, (sortBy le l).Pairwise (fun x y => le x y = true) := by
  intro l
  induction l with
  | nil => simp [sortBy]
  | cons a t ih =>
    rw [sortBy]
    exact pairwise_insertSorted htot htrans a _ ih

theorem mem_sortBy {α : Type} (le : α → α → Bool) (x : α) :
    ∀ l : List α, x ∈ sortBy le l ↔ x ∈ l := by
  intro l
  induction l with
  | nil => simp [sortBy]
  | cons a t ih =>
    rw [sortBy, mem_insertSorted, ih, List.mem_cons]

theorem dedup_sublist {α : Type} (key : α → String) :
    ∀ (l : List α) (seen : List String), List.Sublist (dedupByKey key seen l) l := by
  intro l
  induction l with
  | nil => intro seen; rw [dedupByKey]
  | cons y t ih =>
    intro seen
    rw [dedupByKey]
    split
    · exact List.Sublist.cons y (ih seen)
    · exact List.Sublist.cons₂ y (ih (key y :: seen))

theorem mem_dedup_not_seen {α : Type} (key : α → String) :
    ∀ (l : List α) (seen : List String) (x : α),
      x ∈ dedupByKey key seen l → key x ∉ seen := by
  intro l
  induction l with
  | nil => intro seen x hx; rw [dedupByKey] at hx; exact absurd hx (List.not_mem_nil x)
  | cons y t ih =>
    intro seen x hx
    rw [dedupByKey] at hx
    split at hx
    · exact ih seen x hx
    · rcases List.mem_cons.mp hx with rfl | hx
      · assumption
      · intro hmem
        exact ih (key y :: seen) x hx (List.mem_cons_of_mem _ hmem)

theorem dedup_names_nodup {α : Type} (key : α → String) :
    ∀ (l : List α) (seen : List String), ((dedupByKey key seen l).map key).Nodup := by
  intro l
  induction l with
  | nil => intro seen; rw [dedupByKey]; simp
  | cons y t ih =>
    intro seen
    rw [dedupByKey]
    split
    · exact ih seen
    · rw [List.map_cons]
      refine List.nodup_cons.mpr ⟨?_, ih (key y :: seen)⟩
      intro hmem
      rcases List.mem_map.mp hmem with ⟨x, hx, hkx⟩
      exact mem_dedup_not_seen key t (key y :: seen) x hx (hkx ▸ List.mem_cons_self _ _)

theorem dedup_first {α : Type} (key : α → String) :
    ∀ (l : List α) (seen : List String) (x : α), x ∈ dedupByKey key seen l →
      l.find? (fun y => key y == key x) = some x := by
  intro l
  induction l with
  | nil => intro seen x hx; rw [dedupByKey] at hx; exact absurd hx (List.not_mem_nil x)
  | cons y t ih =>
    intro seen x hx
    rw [dedupByKey] at hx
    split at hx
    · rename_i hseen
      have hne : key y ≠ key x := by
        intro heq
        exact mem_dedup_not_seen key t seen x hx (heq ▸ hseen)
      rw [List.find?_cons_of_neg _ (by simpa using hne)]
      exact ih seen x hx
    · rename_i hseen
      rcases List.mem_cons.mp hx with rfl | hx
      · rw [List.find?_cons_of_pos _ (by simp)]
      · have hne : key y ≠ key x := by
          intro heq
          exact mem_dedup_not_seen key t (key y :: seen) x hx
            (heq ▸ List.mem_cons_self _ _)
        rw [List.find?_cons_of_neg _ (by simpa using hne)]
        exact ih (key y :: seen) x hx

theorem dedup_complete {α : Type} (key : α → String) :
    ∀ (l : List α) (seen : List String) (x : α), x ∈ l → key x ∉ seen →
      ∃ v ∈ dedupByKey key seen l, key v = key x := by
  intro l
  induction l with
  | nil => intro seen x hx; exact absurd hx (List.not_mem_nil x)
  | cons y t ih =>
    intro seen x hx hseen
    rw [dedupByKey]
    split
    · rename_i hy
      rcases List.mem_cons.mp hx with rfl | hx
      · exact absurd hy hseen
      · exact ih seen x hx hseen
    · rename_i hy
      by_cases hxy : key x = key y
      · exact ⟨y, List.mem_cons_self _ _, hxy.symm⟩
      · rcases List.mem_cons.mp hx with rfl | hx
        · exact absurd rfl hxy
        · have hseen' : key x ∉ key y :: seen := by
            intro hmem
            rcases List.mem_cons.mp hmem with h1 | h1
            · exact hxy h1
            · exact hseen h1
          rcases ih (key y :: seen) x hx hseen' with ⟨v, hv, hkv⟩
          exact ⟨v, List.mem_cons_of_mem _ hv, hkv⟩

/-- The output collections of `parse_bsdata_catalog` are the
sort-then-dedup of the walker's collections. -/
theorem parse_catalog_shape {root : Elem} {ds : Dataset}
    (h : parse_bsdata_catalog root = some ds) :
    ∃ s : WalkState,
      ds.units = dedupByKey (fun u => u.name) [] (sortBy uLe s.units) ∧
      ds.enhancements = dedupByKey (fun e => e.name) [] (sortBy eLe s.enhancements) := by
  rw [parse_bsdata_catalog] at h
  split at h
  · exact absurd h (by simp)
  · rename_i s hs
    refine ⟨s, ?_, ?_⟩
    · rw [← Option.some.inj h]
    · rw [← Option.some.inj h]

/-- C6: every dataset the catalog walker emits has its units and
enhancements sorted by name (code-point lexicographic, the Python string
order) with pairwise-distinct names; the survivor of each name is the
first occurrence of that name in post-sort order, and every collected
name keeps a representative; in particular the document with two
same-named unit entries under different identifiers yields exactly one
Unit, the one collected first. -/
theorem C6_sorted_dedup :
    (∀ (root : Elem) (ds : Dataset), parse_bsdata_catalog root = some ds →
       ds.units.Pairwise (fun a b => uLe a b = true)
       ∧ (ds.units.map (fun u => u.name)).Nodup
       ∧ ds.enhancements.Pairwise (fun a b => eLe a b = true)
       ∧ (ds.enhancements.map (fun e => e.name)).Nodup)
    ∧ (∀ (l : List Unit) (u : Unit), u ∈ dedupByKey (fun v => v.name) [] (sortBy uLe l) →
         (sortBy uLe l).find? (fun v => v.name == u.name) = some u)
    ∧ (∀ (l : List Unit) (u : Unit), u ∈ l →
         ∃ v ∈ dedupByKey (fun v => v.name) [] (sortBy uLe l), v.name = u.name)
    ∧ (parse_bsdata_catalog dupNameDoc).map (fun d => d.units.map (fun u => (u.id, u.name)))
        = some [("a", "Custodian Guard")] := by
  have utot : ∀ x y : Unit, uLe x y = true ∨ uLe y x = true :=
    fun x y => charListLe_total _ _
  have utrans : ∀ x y z : Unit, uLe x y = true → uLe y z = true → uLe x z = true :=
    fun x y z => charListLe_trans _ _ _
  have etot : ∀ x y : Enhancement, eLe x y = true ∨ eLe y x = true :=
    fun x y => charListLe_total _ _
  have etrans : ∀ x y z : Enhancement, eLe x y = true → eLe y z = true → eLe x z = true :=
    fun x y z => charListLe_trans _ _ _
  refine ⟨?_, ?_, ?_, rfl⟩
  · intro root ds h
    rcases parse_catalog_shape h with ⟨s, hu, he⟩
    refine ⟨?_, ?_, ?_, ?_⟩
    · rw [hu]
      exact (sortBy_pairwise utot utrans _).sublist (dedup_sublist _ _ _)
    · rw [hu]
      exact dedup_names_nodup _ _ _
    · rw [he]
      exact (sortBy_pairwise etot etrans _).sublist (dedup_sublist _ _ _)
    · rw [he]
      exact dedup_names_nodup _ _ _
  · intro l u hu
    exact dedup_first _ _ _ u hu
  · intro l u hu
    exact dedup_complete _ _ _ u ((mem_sortBy uLe u l).mpr hu) (by simp)

/-- Witness for C6: the clauses with hypotheses applied at concrete
inputs (the two-duplicate document and a singleton unit list). -/
theorem C6_witness :
    ((sortBy uLe [cgUnit 110]).find? (fun v => v.name == (cgUnit 110).name)
        = some (cgUnit 110))
    ∧ (∃ v ∈ dedupByKey (fun v => v.name) [] (sortBy uLe [cgUnit 110]),
        v.name = (cgUnit 110).name)
    ∧ ([{ id := "a", name := "Custodian Guard", points := [("1", (45 : Int))], stats := [],
          invuln := none, weapons := [], abilities := [], keywords := [] }] : List Unit).Pairwise
        (fun a b => uLe a b = true) := by
  refine ⟨C6_sorted_dedup.2.1 [cgUnit 110] (cgUnit 110) (by decide),
          C6_sorted_dedup.2.2.1 [cgUnit 110] (cgUnit 110) (by decide),
          ?_⟩
  exact (C6_sorted_dedup.1 dupNameDoc
    { units := [{ id := "a", name := "Custodian Guard", points := [("1", 45)], stats := [],
                  invuln := none, weapons := [], abilities := [], keywords := [] }],
      enhancements := [], detachments := [] } rfl).1

/-! ## Merge-table lemmas (for C4 and C9) -/

theorem syncPointsTable_eq (n : String) :
    ∀ (fresh stored : List (String × Int)) (lg : List String),
      syncPointsTable n stored fresh lg =
        (mergeTbl stored fresh, lg ++ changeLines n stored fresh) := by
  intro fresh
  induction fresh with
  | nil => intro s lg; rw [syncPointsTable, mergeTbl, changeLines]; simp
  | cons kv rest ih =>
    intro s lg
    rw [syncPointsTable, mergeTbl, changeLines]
    split
    · exact ih s lg
    · rw [ih]
      simp

theorem mergeTbl_lookup_not_mem {k : String} :
    ∀ (f s : List (String × Int)), k ∉ f.map Prod.fst →
      lookupD (mergeTbl s f) k = lookupD s k := by
  intro f
  induction f with
  | nil => intro s _; rw [mergeTbl]
  | cons kv rest ih =>
    intro s hk
    rw [List.map_cons] at hk
    have hk1 : kv.1 ≠ k := fun h => hk (h ▸ List.mem_cons_self _ _)
    have hk2 : k ∉ rest.map Prod.fst := fun h => hk (List.mem_cons_of_mem _ h)
    rw [mergeTbl]
    split
    · exact ih s hk2
    · rw [ih _ hk2, lookupD_updD, if_neg hk1]

theorem mergeTbl_lookup {k : String} {v : Int} :
    ∀ (f s : List (String × Int)), (f.map Prod.fst).Nodup →
      lookupD f k = some v → lookupD (mergeTbl s f) k = some v := by
  intro f
  induction f with
  | nil => intro s _ hv; rw [lookupD] at hv; exact absurd hv (by simp)
  | cons kv rest ih =>
    intro s hnd hv
    obtain ⟨a, b⟩ := kv
    rw [List.map_cons, List.nodup_cons] at hnd
    rw [lookupD] at hv
    rw [mergeTbl]
    by_cases hak : a = k
    · subst hak
      rw [if_pos rfl] at hv
      obtain rfl : b = v := Option.some.inj hv
      have hnot : a ∉ rest.map Prod.fst := hnd.1
      split
      · rename_i heq
        rw [mergeTbl_lookup_not_mem rest s hnot]
        exact eq_of_beq heq
      · rw [mergeTbl_lookup_not_mem rest _ hnot, lookupD_updD, if_pos rfl]
    · rw [if_neg hak] at hv
      split
      · exact ih s hnd.2 hv
      · exact ih _ hnd.2 hv

theorem changeLines_spec (n : String) :
    ∀ (f s : List (String × Int)), (f.map Prod.fst).Nodup →
      changeLines n s f =
        (f.filter (fun kv => !(lookupD s kv.1 == some kv.2))).map
          (fun kv => unitChangeLine n kv.1 (lookupD s kv.1) kv.2) := by
  intro f
  induction f with
  | nil => intro s _; rw [changeLines]; simp
  | cons kv rest ih =>
    intro s hnd
    rw [List.map_cons, List.nodup_cons] at hnd
    rw [changeLines, List.filter_cons]
    split
    · rename_i heq
      rw [heq]
      simp only [Bool.not_true, if_false]
      exact ih s hnd.2
    · rename_i hne
      have hne' : (lookupD s kv.1 == some kv.2) = false := by
        cases h : lookupD s kv.1 == some kv.2
        · rfl
        · exact absurd h hne
      rw [hne']
      simp only [Bool.not_false, if_true, List.map_cons]
      rw [ih _ hnd.2]
      have hcong : ∀ kv' ∈ rest, lookupD (updD kv.1 kv.2 s) kv'.1 = lookupD s kv'.1 := by
        intro kv' hkv'
        rw [lookupD_updD]
        rw [if_neg]
        intro h
        exact hnd.1 (h ▸ List.mem_map_of_mem Prod.fst hkv')
      rw [List.filter_congr (fun kv' hkv' => by rw [hcong kv' hkv'])]
      refine congrArg _ ?_
      apply List.map_congr_left
      intro kv' hkv'
      rw [hcong kv' (List.mem_of_mem_filter hkv')]

/-! ## C4: merge overwrites differing entries and logs them -/

/-- C4: for a stored points table and a fresh table with distinct keys,
every entry whose key exists in the fresh table with a differing value is
overwritten with the fresh value; the appended log is exactly one change
line per differing fresh key, each naming the unit, the old stored value
and the new value — in particular the line for the overwritten key is in
the log; and on the concrete scenario, merging fresh value 120 onto
stored 110 at key "3" patches the stored unit's table to 120 and logs a
line containing the unit name, 110 and 120. -/
theorem C4_sync_overwrite :
    (∀ (n : String) (stored fresh : List (String × Int)) (lg : List String)
       (k : String) (w v : Int),
       (fresh.map Prod.fst).Nodup →
       lookupD stored k = some w → lookupD fresh k = some v → w ≠ v →
       lookupD (syncPointsTable n stored fresh lg).1 k = some v
       ∧ (syncPointsTable n stored fresh lg).2 =
           lg ++ (fresh.filter (fun kv => !(lookupD stored kv.1 == some kv.2))).map
             (fun kv => unitChangeLine n kv.1 (lookupD stored kv.1) kv.2)
       ∧ unitChangeLine n k (some w) v ∈ (syncPointsTable n stored fresh lg).2)
    ∧ (sync_points cgFresh cgStored).1.units = [cgUnit 120]
    ∧ (sync_points cgFresh cgStored).2 =
        [unitChangeLine "Custodian Guard" "3" (some 110) 120]
    ∧ containsSub (unitChangeLine "Custodian Guard" "3" (some 110) 120).data
        "Custodian Guard".data = true
    ∧ containsSub (unitChangeLine "Custodian Guard" "3" (some 110) 120).data
        "110".data = true
    ∧ containsSub (unitChangeLine "Custodian Guard" "3" (some 110) 120).data
        "120".data = true := by
  refine ⟨?_, rfl, rfl, by decide, by decide, by decide⟩
  intro n stored fresh lg k w v hnd hw hv hne
  rw [syncPointsTable_eq]
  refine ⟨mergeTbl_lookup fresh stored hnd hv, ?_, ?_⟩
  · rw [changeLines_spec n fresh stored hnd]
  · rw [changeLines_spec n fresh stored hnd]
    refine List.mem_append_right lg ?_
    have hmem : (k, v) ∈ fresh.filter (fun kv => !(lookupD stored kv.1 == some kv.2)) := by
      refine List.mem_filter.mpr ⟨lookupD_mem hv, ?_⟩
      rw [hw]
      simp only [Bool.not_eq_true']
      rw [beq_eq_false_iff_ne]
      intro hcontra
      exact hne (Option.some.inj hcontra)
    have hmap := List.mem_map_of_mem
      (fun kv => unitChangeLine n kv.1 (lookupD stored kv.1) kv.2) hmem
    have h2 : unitChangeLine n k (lookupD stored k) v ∈
        List.map (fun kv => unitChangeLine n kv.1 (lookupD stored kv.1) kv.2)
          (List.filter (fun kv => !(lookupD stored kv.1 == some kv.2)) fresh) := hmap
    rw [hw] at h2
    exact h2

/-- Witness for C4: the general clause applied to the concrete merge
scenario (stored 110, fresh 120 at key "3"). -/
theorem C4_witness :
    lookupD (syncPointsTable "Custodian Guard" [("3", 110)] [("3", 120)] []).1 "3"
      = some 120
    ∧ unitChangeLine "Custodian Guard" "3" (some 110) 120
        ∈ (syncPointsTable "Custodian Guard" [("3", 110)] [("3", 120)] []).2 := by
  have h := C4_sync_overwrite.1 "Custodian Guard" [("3", 110)] [("3", 120)] []
    "3" 110 120 (by decide) (by decide) (by decide) (by decide)
  exact ⟨h.1, h.2.2⟩

/-! ## C9: the merge's frame (only points fields change) -/

theorem sync_units_fold_fst (bsUnits : List (String × Unit)) :
    ∀ (us : List Unit) (acc : List Unit × List String),
      (us.foldl (syncUnitStep bsUnits) acc).1 = acc.1 ++ us.map (patchU bsUnits) := by
  intro us
  induction us with
  | nil => intro acc; simp
  | cons u rest ih =>
    intro acc
    rw [List.foldl_cons, ih, List.map_cons]
    rw [syncUnitStep, patchU]
    cases lookupD bsUnits u.name with
    | none => simp
    | some bu => simp [syncPointsTable_eq]

theorem syncEnh_fst (bsEnh : List (String × Enhancement)) (e : Enhancement)
    (lg : List String) : (syncEnh bsEnh e lg).1 = patchE bsEnh e := by
  rw [syncEnh, patchE]
  cases lookupD bsEnh e.name with
  | none => rfl
  | some be =>
    by_cases h : e.points ≠ be.points
    · simp [h]
    · simp [h]

theorem sync_enh_fold_fst (bsEnh : List (String × Enhancement)) :
    ∀ (es : List Enhancement) (acc2 : List Enhancement × List String),
      (es.foldl (syncEnhStep bsEnh) acc2).1 = acc2.1 ++ es.map (patchE bsEnh) := by
  intro es
  induction es with
  | nil => intro acc2; simp
  | cons e rest ih =>
    intro acc2
    rw [List.foldl_cons, ih, List.map_cons]
    rw [syncEnhStep, syncEnh_fst]
    simp

theorem sync_dets_fold_fst (bsEnh : List (String × Enhancement)) :
    ∀ (ds : List (String × WbDet)) (acc : List (String × WbDet) × List String),
      (ds.foldl (syncDetStep bsEnh) acc).1 = acc.1 ++ ds.map (patchD bsEnh) := by
  intro ds
  induction ds with
  | nil => intro acc; simp
  | cons kd rest ih =>
    intro acc
    rw [List.foldl_cons, ih, List.map_cons]
    rw [syncDetStep, patchD, sync_enh_fold_fst]
    simp

theorem sync_points_units (bs : Dataset) (wb : Warboard) :
    (sync_points bs wb).1.units = wb.units.map (patchU (bsUnitsDict bs)) := by
  rw [sync_points]
  rw [sync_units_fold_fst]
  rw [List.nil_append]
  rfl

theorem sync_points_dets (bs : Dataset) (wb : Warboard) :
    (sync_points bs wb).1.detachments = wb.detachments.map (patchD (bsEnhDict bs)) := by
  rw [sync_points]
  rw [sync_dets_fold_fst]
  rw [List.nil_append]
  rfl

theorem forall2_map_self {α β : Type} (P : α → β → Prop) (f : α → β)
    (h : ∀ a, P a (f a)) : ∀ l : List α, List.Forall₂ P l (l.map f) := by
  intro l
  induction l with
  | nil => simp
  | cons a rest ih =>
    rw [List.map_cons]
    exact List.Forall₂.cons (h a) ih

/-- C9: merging changes nothing in the stored dataset except unit points
tables and enhancement point costs — every other field of every stored
unit, every detachment entry and every nested enhancement is carried over
unchanged (the embedding is a pure function of the fresh dataset, which
the code never writes through) — and a fresh key absent from a stored
unit's table is added with the fresh value, so the merge is not limited
to keys already present; the concrete scenario adds key "6" at 220 to a
stored table holding only key "3". -/
theorem C9_sync_points_frame :
    (∀ (bs : Dataset) (wb : Warboard),
       List.Forall₂ (fun u u' => u'.id = u.id ∧ u'.name = u.name ∧ u'.stats = u.stats
         ∧ u'.invuln = u.invuln ∧ u'.weapons = u.weapons ∧ u'.abilities = u.abilities
         ∧ u'.keywords = u.keywords) wb.units (sync_points bs wb).1.units
       ∧ List.Forall₂ (fun kd kd' => kd'.1 = kd.1 ∧ kd'.2.name = kd.2.name
           ∧ List.Forall₂ (fun e e' => e'.id = e.id ∧ e'.name = e.name
               ∧ e'.description = e.description) kd.2.enhancements kd'.2.enhancements)
           wb.detachments (sync_points bs wb).1.detachments)
    ∧ (∀ (n : String) (stored fresh : List (String × Int)) (lg : List String)
         (k : String) (v : Int),
         (fresh.map Prod.fst).Nodup → lookupD fresh k = some v →
         lookupD stored k = none →
         lookupD (syncPointsTable n stored fresh lg).1 k = some v)
    ∧ (sync_points cgFreshWide cgStored).1.units =
        [{ cgUnit 110 with points := [("3", 110), ("6", 220)] }] := by
  refine ⟨?_, ?_, rfl⟩
  · intro bs wb
    constructor
    · rw [sync_points_units]
      refine forall2_map_self _ _ ?_ wb.units
      intro u
      rw [patchU]
      cases lookupD (bsUnitsDict bs) u.name with
      | none => exact ⟨rfl, rfl, rfl, rfl, rfl, rfl, rfl⟩
      | some bu => exact ⟨rfl, rfl, rfl, rfl, rfl, rfl, rfl⟩
    · rw [sync_points_dets]
      refine forall2_map_self _ _ ?_ wb.detachments
      intro kd
      rw [patchD]
      refine ⟨rfl, rfl, ?_⟩
      refine forall2_map_self _ _ ?_ kd.2.enhancements
      intro e
      rw [patchE]
      cases lookupD (bsEnhDict bs) e.name with
      | none => exact ⟨rfl, rfl, rfl⟩
      | some be =>
        by_cases h : e.points ≠ be.points
        · simp [h]
        · simp [h]
  · intro n stored fresh lg k v hnd hv _
    rw [syncPointsTable_eq]
    exact mergeTbl_lookup fresh stored hnd hv

/-- Witness for C9: the key-addition clause applied to the concrete
table (fresh key "6" absent from the stored table). -/
theorem C9_witness :
    lookupD (syncPointsTable "Custodian Guard" [("3", 110)]
        [("3", 110), ("6", 220)] []).1 "6" = some 220 :=
  C9_sync_points_frame.2.1 "Custodian Guard" [("3", 110)] [("3", 110), ("6", 220)] []
    "6" 220 (by decide) (by decide) (by decide)

/-! ## C3: the diff comparison -/

theorem pyMinInt_isSome : ∀ l : List Int, l ≠ [] → ∃ m, pyMinInt l = some m := by
  intro l hl
  cases l with
  | nil => exact absurd rfl hl
  | cons v vs => exact ⟨_, rfl⟩

/-- C3: for a stored unit found in the fresh dataset (whose tables hold
the positive costs extraction produces), the diff compares the stored
value at the stored unit's own minimum-model-count key against the fresh
value at that key, falling back to the fresh dataset's lowest point value
exactly when that key is absent; on inequality it appends the mismatch
entry of name, stored value and fresh value and leaves the match counter
alone, on equality it increments the counter; in particular stored 110
versus fresh 120 at key "3" yields exactly that mismatch entry and a zero
match count. -/
theorem C3_compare_diff :
    (∀ (c : Comparison) (nm : String) (wu bu : Unit) (kmin : String) (wbBase : Int),
       pyMinKeyByInt (wu.points.map Prod.fst) = some kmin →
       lookupD wu.points kmin = some wbBase →
       bu.points ≠ [] → (∀ kv ∈ bu.points, 0 < kv.2) →
       ∃ bsBase,
         (lookupD bu.points kmin = some bsBase
          ∨ (lookupD bu.points kmin = none
             ∧ pyMinInt (bu.points.map Prod.snd) = some bsBase))
         ∧ compareUnitStep c nm wu bu =
             some (if wbBase ≠ bsBase then
                     { c with unit_differences :=
                         c.unit_differences ++ [⟨nm, wbBase, bsBase⟩] }
                   else { c with matching_units := c.matching_units + 1 }))
    ∧ compare_data cgFresh cgStored =
        some { initComparison with
               unit_differences := [⟨"Custodian Guard", 110, 120⟩] } := by
  refine ⟨?_, rfl⟩
  intro c nm wu bu kmin wbBase hkmin hwb hne hpos
  rw [compareUnitStep]
  simp only [hkmin, hwb]
  cases hl : lookupD bu.points kmin with
  | some v =>
    have hv0 : v ≠ 0 := by
      have := hpos (kmin, v) (lookupD_mem hl)
      omega
    refine ⟨v, Or.inl rfl, ?_⟩
    simp only [pyOrBase, if_pos hv0]
    by_cases hd : wbBase ≠ v
    · simp [hd]
    · simp [hd]
  | none =>
    have hmap : bu.points.map Prod.snd ≠ [] := by
      intro h
      exact hne (List.map_eq_nil_iff.mp h)
    rcases pyMinInt_isSome _ hmap with ⟨m, hm⟩
    refine ⟨m, Or.inr ⟨rfl, hm⟩, ?_⟩
    simp only [pyOrBase, hm]
    by_cases hd : wbBase ≠ m
    · simp [hd]
    · simp [hd]

/-- Witness for C3: the general clause applied to the concrete scenario
(stored 110 versus fresh 120 at the stored minimum key "3"). -/
theorem C3_witness :
    ∃ bsBase,
      (lookupD (cgUnit 120).points "3" = some bsBase
       ∨ (lookupD (cgUnit 120).points "3" = none
          ∧ pyMinInt ((cgUnit 120).points.map Prod.snd) = some bsBase))
      ∧ compareUnitStep initComparison "Custodian Guard" (cgUnit 110) (cgUnit 120) =
          some (if (110 : Int) ≠ bsBase then
                  { initComparison with unit_differences :=
                      initComparison.unit_differences
                        ++ [⟨"Custodian Guard", 110, bsBase⟩] }
                else { initComparison with
                       matching_units := initComparison.matching_units + 1 }) :=
  C3_compare_diff.1 initComparison "Custodian Guard" (cgUnit 110) (cgUnit 120)
    "3" 110 rfl rfl (by decide) (by decide)

end BS
